import Mathlib

/-
Verification of the contract-os back-office application (src/app.py).

The code is a Streamlit application over a Google-Sheets backing store.  We
give a shallow embedding of the parts the specification talks about:

* the worksheet store and the schema reconciler init_sheet,
* the cached table reader load_data (a 60-unit freshness window, a
  session-state stale-fallback backup) and clear_cache,
* the metric aggregations over a column of an in-memory record set
  (pending expenses, year-to-date mileage),
* the pipeline-contract and mileage submission forms, with the mileage
  arithmetic modelled down to IEEE-754 double rounding (doubles are
  represented as exact fractions, rounded to a 53-bit significand).

Numbers are carried as exact fractions (integer numerator over positive
integer denominator, not reduced, so that every operation is a plain
integer computation); the conversion toRat gives their rational value for
the statements.  Timestamps are naturals.  Store-level failures are inputs
to the reader (a fetch outcome), matching the except-branches of the code.
-/

/-- An exact fraction: integer numerator over a positive integer
denominator.  Every constructor used below keeps the denominator positive;
fractions are deliberately not reduced, so all arithmetic is plain integer
arithmetic. -/
structure Frac where
  n : Int
  d : Int
deriving DecidableEq

/-- The rational value of a fraction. -/
def Frac.toRat (q : Frac) : Rat := (q.n : Rat) / (q.d : Rat)

/-- Fraction of an integer. -/
def Frac.ofInt (i : Int) : Frac := ⟨i, 1⟩

def Frac.add (a b : Frac) : Frac := ⟨a.n * b.d + b.n * a.d, a.d * b.d⟩

def Frac.sub (a b : Frac) : Frac := ⟨a.n * b.d - b.n * a.d, a.d * b.d⟩

def Frac.mul (a b : Frac) : Frac := ⟨a.n * b.n, a.d * b.d⟩

/-- Division, keeping the denominator positive. -/
def Frac.div (a b : Frac) : Frac :=
  if b.n < 0 then ⟨-(a.n * b.d), a.d * (-b.n)⟩ else ⟨a.n * b.d, a.d * b.n⟩

/-- Absolute value. -/
def Frac.absF (a : Frac) : Frac := ⟨(a.n.natAbs : Int), a.d⟩

/-- Strict comparison (valid for positive denominators). -/
def Frac.blt (a b : Frac) : Bool := a.n * b.d < b.n * a.d

/-- Floor (valid for positive denominators): Euclidean division rounds
toward negative infinity when the divisor is positive. -/
def Frac.floorF (a : Frac) : Int := Int.ediv a.n a.d

/-- Sum of a list of fractions. -/
def sumF : List Frac → Frac
  | [] => ⟨0, 1⟩
  | x :: t => Frac.add x (sumF t)

/-- A cell of a record set: gspread's get_all_records yields numbers for
numeric-looking cells and strings otherwise; pandas keeps them as a numeric
or object column accordingly. -/
inductive Cell where
  | numC (q : Frac)
  | strC (s : String)
deriving DecidableEq

/-- An in-memory record set (the rows of one worksheet as fetched). -/
abbrev DF := List (List Cell)

/-- First-match lookup in an association list keyed by strings. -/
def lookupA {α : Type} : List (String × α) → String → Option α
  | [], _ => none
  | (k, v) :: t, n => if k = n then some v else lookupA t n

/-- Replace the value at the first entry with the given key, or append a new
entry at the end when the key is absent. -/
def setA {α : Type} : List (String × α) → String → α → List (String × α)
  | [], n, v => [(n, v)]
  | (k, w) :: t, n, v => if k = n then (n, v) :: t else (k, w) :: setA t n v

/-- Apply a function to the value at the first entry with the given key;
leave the list unchanged when the key is absent. -/
def updateA {α : Type} : List (String × α) → String → (α → α) → List (String × α)
  | [], _, _ => []
  | (k, w) :: t, n, f => if k = n then (k, f w) :: t else (k, w) :: updateA t n f

/-- A worksheet: the list of its grid rows that carry data, each row a list
of cell texts (an absent trailing cell and an empty-string cell are not
distinguished, as in the Sheets API). -/
structure Worksheet where
  rows : List (List String)
deriving DecidableEq

/-- The spreadsheet: worksheets keyed by title. -/
abbrev Store := List (String × Worksheet)

/-- Drop trailing empty-string cells, as gspread's row_values does. -/
def stripTrailingEmpty (l : List String) : List String :=
  (l.reverse.dropWhile (fun s => s == "")).reverse

/-- gspread worksheet.row_values(1): the first row with trailing empty
cells dropped; an entirely empty worksheet yields the empty list. -/
def rowValues1 (ws : Worksheet) : List String :=
  match ws.rows with
  | [] => []
  | r :: _ => stripTrailingEmpty r

/-- Write value v at 0-based index i of a row, padding with empty cells
when the row is shorter than i. -/
def setPad : List String → Nat → String → List String
  | [], 0, v => [v]
  | [], i + 1, v => "" :: setPad [] i v
  | _ :: t, 0, v => v :: t
  | x :: t, i + 1, v => x :: setPad t i v

/-- gspread worksheet.update_cell(1, col, v) as used by init_sheet: set the
cell in row 1 at 1-based column col. -/
def updateHeaderCell (s : Store) (name : String) (col : Nat) (v : String) : Store :=
  updateA s name (fun ws =>
    ⟨match ws.rows with
     | [] => [setPad [] (col - 1) v]
     | r :: rest => setPad r (col - 1) v :: rest⟩)

/-- gspread worksheet.append_row: the Sheets values-append call appends the
row immediately after the last row of the current data region (row 1 when
the worksheet is entirely empty). -/
def appendRowStore (s : Store) (name : String) (row : List String) : Store :=
  updateA s name (fun ws => ⟨ws.rows ++ [row]⟩)

/-- The canonical worksheet names and header lists of init_sheet. -/
def tables : List (String × List String) :=
  [("Directory", ["Name", "Company", "Email", "Phone", "Address", "Pay Rate"]),
   ("Hours", ["Employee", "Date", "Hours", "Task", "Contract"]),
   ("Expenses", ["Category", "Amount", "Date", "Description", "Contract"]),
   ("Mileage", ["Date", "License", "Vehicle", "Vehicle Type", "Starting Odometer",
                "Ending Odometer", "Total Miles", "Reimbursement Amount"]),
   ("Pipeline_Contracts", ["Name", "Notice ID", "Contract Type", "Contact Name",
                           "Contact Email", "Date Offers Due", "Inactive Date",
                           "Publish Date", "Notes"]),
   ("Pipeline_Companies", ["Company Name", "Contact Name", "Contact Email",
                           "Contact Phone", "Contacted", "Facebook URL"]),
   ("Active_Contracts", ["Contract Name", "Agency", "Contract Number", "Start Date",
                         "End Date", "Total Ceiling Value", "Status", "Notes"]),
   ("Invoices", ["Invoice Number", "Contract", "Date Sent", "Due Date", "Amount",
                 "Status", "Notes"])]

/-- The inner loop of init_sheet over the canonical headers of one table:
for each header absent from the existing set, update_cell(1, len+1, header)
and extend the local existing list. -/
def processHeaders (n : String) : List String → List String → Store → Store
  | [], _, s => s
  | h :: hs, existing, s =>
    if h ∈ existing then processHeaders n hs existing s
    else processHeaders n hs (existing ++ [h]) (updateHeaderCell s n (existing.length + 1) h)

/-- One iteration of the init_sheet loop for a single (name, headers) pair:
look the worksheet up; when absent, add it and append the header row; when
its first row is empty, append the header row; otherwise fill in the
missing headers. -/
def processTable (s : Store) (t : String × List String) : Store :=
  match lookupA s t.1 with
  | some ws =>
      if (rowValues1 ws).isEmpty then appendRowStore s t.1 t.2
      else processHeaders t.1 t.2 (rowValues1 ws) s
  | none => appendRowStore (s ++ [(t.1, ⟨[]⟩)]) t.1 t.2

/-- The schema reconciler init_sheet of src/app.py: ensure each canonical
worksheet exists and carries its canonical headers. -/
def init_sheet (s : Store) : Store :=
  tables.foldl processTable s

/-- Outcome of one live worksheet fetch, as classified by load_data's
except-branch: success with the fetched record set, a failure whose message
matches 429 / Quota exceeded, or any other failure. -/
inductive FetchResult where
  | success (df : DF)
  | rateLimited
  | otherError
deriving DecidableEq

/-- The process-wide mutable state of the reader: the st.cache_data entries
of load_data keyed by worksheet name (timestamp and memoized return value),
and the session-state data_backup mapping. -/
structure AppState where
  cache : List (String × Nat × DF)
  backup : List (String × DF)
deriving DecidableEq

/-- An st.cache_data(ttl=60) hit: the memoized value when an entry exists
whose age is below 60 time units. -/
def cacheFresh (cache : List (String × Nat × DF)) (now : Nat) (name : String) : Option DF :=
  match lookupA cache name with
  | some (t, df) => if now < t + 60 then some df else none
  | none => none

/-- What one call to load_data produces: the record set handed back, the
state afterwards, whether the backing store was contacted, and whether a
warning or an error was surfaced. -/
structure ReadOutcome where
  result : DF
  state : AppState
  storeContacted : Bool
  warned : Bool
  errored : Bool
deriving DecidableEq

/-- load_data of src/app.py for a connected sheet.  On a cache hit the body
does not run.  Otherwise the live fetch outcome is the input: on success
the backup and the memo are updated; on a rate-limited failure a warning is
surfaced and the backup entry (when present) is returned, else an error is
surfaced and an empty record set returned; on any other failure an error is
surfaced and an empty record set returned.  st.cache_data memoizes the
returned value in every branch. -/
def load_data (st : AppState) (now : Nat) (name : String) (fetch : FetchResult) : ReadOutcome :=
  match cacheFresh st.cache now name with
  | some df => ⟨df, st, false, false, false⟩
  | none =>
    match fetch with
    | FetchResult.success df =>
        ⟨df, ⟨setA st.cache name (now, df), setA st.backup name df⟩, true, false, false⟩
    | FetchResult.rateLimited =>
        match lookupA st.backup name with
        | some df => ⟨df, ⟨setA st.cache name (now, df), st.backup⟩, true, true, false⟩
        | none => ⟨[], ⟨setA st.cache name (now, []), st.backup⟩, true, true, true⟩
    | FetchResult.otherError =>
        ⟨[], ⟨setA st.cache name (now, []), st.backup⟩, true, false, true⟩

/-- clear_cache of src/app.py: st.cache_data.clear() drops every cache
entry; the session-state backup is untouched. -/
def clear_cache (st : AppState) : AppState :=
  ⟨[], st.backup⟩

/-- One user-visible event touching the reader state: a read of a table (at
a time, with a given live-fetch outcome) or an explicit invalidation. -/
inductive Step where
  | read (now : Nat) (name : String) (fetch : FetchResult)
  | clear

/-- The state after one step. -/
def stepState (st : AppState) : Step → AppState
  | Step.read now name f => (load_data st now name f).state
  | Step.clear => clear_cache st

/-- The state after a sequence of steps. -/
def runTrace (st : AppState) : List Step → AppState
  | [] => st
  | s :: rest => runTrace (stepState st s) rest

/-- Observer on a trace: the record set of the most recent read of the given
table whose body actually ran (a cache miss at that point) with a successful
fetch, if any. -/
def lastSuccess (st : AppState) (name : String) : List Step → Option DF
  | [] => none
  | s :: rest =>
    match lastSuccess (stepState st s) name rest with
    | some df => some df
    | none =>
      match s with
      | Step.read now n (FetchResult.success df) =>
          if n = name ∧ cacheFresh st.cache now n = none then some df else none
      | _ => none

/-- Remove every dollar sign and comma from a string, as the regex
replace of the Amount / Total Ceiling Value columns does. -/
def stripDollarComma (s : String) : String :=
  String.mk (s.data.filter (fun c => !(c == '$' || c == ',')))

/-- Numeric value of a list of decimal digits. -/
def digitsVal (l : List Char) : Nat :=
  l.foldl (fun a c => a * 10 + (c.toNat - 48)) 0

/-- Parse an unsigned decimal literal (digits, optionally a point and more
digits; at least one digit overall), the forms of Python float conversion
the record sets exercise. -/
def parseDecimal (l : List Char) : Option Frac :=
  let ip := l.takeWhile Char.isDigit
  let rest := l.dropWhile Char.isDigit
  match rest with
  | [] => if ip.isEmpty then none else some ⟨(digitsVal ip : Int), 1⟩
  | '.' :: fp =>
      if (ip.isEmpty && fp.isEmpty) || !(fp.all Char.isDigit) then none
      else some ⟨(digitsVal ip : Int) * (10 : Int) ^ fp.length + (digitsVal fp : Int),
                 (10 : Int) ^ fp.length⟩
  | _ => none

/-- Python-style string-to-float conversion (an optional sign, then a
decimal literal); none when the string does not parse. -/
def pyFloat (s : String) : Option Frac :=
  match s.data with
  | '-' :: rest => (parseDecimal rest).map (fun q => ⟨-q.n, q.d⟩)
  | '+' :: rest => parseDecimal rest
  | l => parseDecimal l

/-- Whether a cell is numeric; a pandas column has dtype object exactly when
some cell is a string. -/
def isNumCell : Cell → Bool
  | Cell.numC _ => true
  | Cell.strC _ => false

/-- The numeric value of a cell of an all-numeric column. -/
def cellNum : Cell → Frac
  | Cell.numC q => q
  | Cell.strC _ => ⟨0, 1⟩

/-- astype(float) applied after the currency regex replace: numbers pass
through, strings are stripped of dollar signs and commas and then parsed;
none models the ValueError astype raises. -/
def cellToFloatStripped : Cell → Option Frac
  | Cell.numC q => some q
  | Cell.strC s => pyFloat (stripDollarComma s)

/-- pd.to_numeric(errors=coerce) on one cell: numbers pass through, strings
are parsed as written (no stripping); none models NaN. -/
def cellToNumeric : Cell → Option Frac
  | Cell.numC q => some q
  | Cell.strC s => pyFloat s

/-- Convert a whole column, failing when any single cell fails, as
astype(float) does. -/
def mapOpt (g : Cell → Option Frac) : List Cell → Option (List Frac)
  | [] => some []
  | c :: t =>
    match g c, mapOpt g t with
    | some v, some vs => some (v :: vs)
    | _, _ => none

/-- The Pending Expenses metric on the Amount column (src/app.py lines
204-208): when the column is object-typed, strip currency formatting and
convert with astype(float) - which raises on a non-parseable value, so no
sum is produced (none); otherwise sum the numeric column directly. -/
def pending_expenses (col : List Cell) : Option Frac :=
  if col.all isNumCell then some (sumF (col.map cellNum))
  else (mapOpt cellToFloatStripped col).map sumF

/-- The YTD Mileage metric on the Total Miles column (src/app.py lines
210-212): pd.to_numeric(errors=coerce) then sum; a non-parseable value
becomes NaN, which the pandas sum skips, contributing zero. -/
def ytd_mileage (col : List Cell) : Frac :=
  sumF (col.map (fun c => (cellToNumeric c).getD ⟨0, 1⟩))

/-- Follows the spec's words, for comparison with the code: the sum of a
numeric column that strips currency symbols and thousands separators before
parsing and treats every non-parseable value as zero. -/
def specColumnSum (col : List Cell) : Frac :=
  sumF (col.map (fun c => (cellToFloatStripped c).getD ⟨0, 1⟩))

/-- Floor of the base-2 logarithm of a positive fraction, with explicit
recursion fuel (far more than any IEEE-754 double exponent needs). -/
def ilog2F : Nat → Frac → Int
  | 0, _ => 0
  | f + 1, x =>
    if Frac.blt x ⟨1, 1⟩ then ilog2F f (Frac.mul ⟨2, 1⟩ x) - 1
    else if Frac.blt x ⟨2, 1⟩ then 0
    else ilog2F f (Frac.div x ⟨2, 1⟩) + 1

/-- Floor of the base-2 logarithm of a positive fraction. -/
def ilog2 (x : Frac) : Int := ilog2F 5000 x

/-- Round a fraction to the nearest integer, ties to even (denominator
assumed positive). -/
def roundHalfEven (q : Frac) : Int :=
  let f := Frac.floorF q
  let r2 := 2 * (q.n - f * q.d)
  if r2 < q.d then f
  else if q.d < r2 then f + 1
  else if f % 2 = 0 then f else f + 1

/-- The power of two with the given integer exponent, as a fraction. -/
def pow2F (k : Int) : Frac :=
  if k < 0 then ⟨1, (2 : Int) ^ (-k).toNat⟩ else ⟨(2 : Int) ^ k.toNat, 1⟩

/-- Round a fraction to the nearest IEEE-754 binary64 value (53-bit
significand, round to nearest, ties to even), represented exactly;
exponent overflow and subnormals are not modelled (the inputs here are far
from both). -/
def roundDouble (x : Frac) : Frac :=
  if x.n = 0 then ⟨0, 1⟩
  else
    let m := Frac.absF x
    let e := ilog2 m
    let scale := pow2F (52 - e)
    let n := roundHalfEven (Frac.mul m scale)
    Frac.div (if x.n < 0 then ⟨-n, 1⟩ else ⟨n, 1⟩) scale

/-- Two-digit rendering of a value below 100. -/
def pad2 (n : Nat) : String :=
  if n < 10 then "0" ++ toString n else toString n

/-- The Python f-string dollar format with two decimals applied to the exact
value of a double: correctly rounded decimal conversion, ties to even. -/
def fmtDollar2 (x : Frac) : String :=
  let n := roundHalfEven (Frac.mul x ⟨100, 1⟩)
  let sign := if n < 0 then "-" else ""
  let m := n.natAbs
  "$" ++ sign ++ toString (m / 100) ++ "." ++ pad2 (m % 100)

/-- What a form submission produced: the row appended to the backing store
(none when the form did not submit) and whether an error was surfaced. -/
structure SubmitResult where
  appended : Option (List Cell)
  errored : Bool
deriving DecidableEq

/-- The pipeline-contract form handler (src/app.py lines 250-258) with the
store append succeeding: a row is appended only when the submitted
opportunity name is non-empty (Python truthiness of the string); an empty
name silently does nothing. -/
def pipeline_contract_form (name notice_id contract_type contact_name contact_email
    offers_due inactive_date publish_date notes : String) : SubmitResult :=
  if name ≠ "" then
    { appended := some [Cell.strC name, Cell.strC notice_id, Cell.strC contract_type,
        Cell.strC contact_name, Cell.strC contact_email, Cell.strC offers_due,
        Cell.strC inactive_date, Cell.strC publish_date, Cell.strC notes],
      errored := false }
  else { appended := none, errored := false }

/-- The mileage form handler (src/app.py lines 649-668) with the store
append succeeding: on submission it always computes total miles and the
reimbursement string with double arithmetic and appends the row - there is
no required-field check.  The literal 0.65 denotes the double nearest to
13/20. -/
def mileage_form (mileage_date license_plate vehicle vehicle_type : String)
    (start_odo end_odo : Frac) : SubmitResult :=
  { appended := some [Cell.strC mileage_date, Cell.strC license_plate, Cell.strC vehicle,
      Cell.strC vehicle_type, Cell.numC start_odo, Cell.numC end_odo,
      Cell.numC (roundDouble (Frac.sub end_odo start_odo)),
      Cell.strC (fmtDollar2 (roundDouble (Frac.mul (roundDouble (Frac.sub end_odo start_odo))
        (roundDouble ⟨13, 20⟩))))],
    errored := false }

theorem lookupA_setA_self {α : Type} (l : List (String × α)) (n : String) (v : α) :
    lookupA (setA l n v) n = some v := by
  induction l with
  | nil => simp [setA, lookupA]
  | cons p t ih =>
    obtain ⟨k, w⟩ := p
    by_cases h : k = n
    · simp [setA, h, lookupA]
    · simp [setA, h, lookupA, ih]

theorem lookupA_setA_ne {α : Type} (l : List (String × α)) (n n' : String) (v : α)
    (h : n' ≠ n) : lookupA (setA l n v) n' = lookupA l n' := by
  induction l with
  | nil => simp [setA, lookupA, Ne.symm h]
  | cons p t ih =>
    obtain ⟨k, w⟩ := p
    by_cases hk : k = n
    · subst hk
      simp [setA, lookupA, Ne.symm h]
    · simp only [setA, if_neg hk, lookupA]
      by_cases hk' : k = n'
      · simp [hk']
      · simp [hk', ih]

theorem lookupA_updateA_self {α : Type} (l : List (String × α)) (n : String) (f : α → α) :
    lookupA (updateA l n f) n = (lookupA l n).map f := by
  induction l with
  | nil => simp [updateA, lookupA]
  | cons p t ih =>
    obtain ⟨k, w⟩ := p
    by_cases h : k = n
    · simp [updateA, h, lookupA]
    · simp [updateA, h, lookupA, ih]

theorem lookupA_updateA_ne {α : Type} (l : List (String × α)) (n n' : String) (f : α → α)
    (h : n' ≠ n) : lookupA (updateA l n f) n' = lookupA l n' := by
  induction l with
  | nil => simp [updateA, lookupA]
  | cons p t ih =>
    obtain ⟨k, w⟩ := p
    by_cases hk : k = n
    · subst hk
      simp [updateA, lookupA, Ne.symm h]
    · simp only [updateA, if_neg hk, lookupA]
      by_cases hk' : k = n'
      · simp [hk']
      · simp [hk', ih]

theorem lookupA_append_right {α : Type} (l : List (String × α)) (n : String) (v : α)
    (h : lookupA l n = none) : lookupA (l ++ [(n, v)]) n = some v := by
  induction l with
  | nil => simp [lookupA]
  | cons p t ih =>
    obtain ⟨k, w⟩ := p
    by_cases hk : k = n
    · simp [lookupA, hk] at h
    · simp only [lookupA, if_neg hk] at h
      simp [lookupA, hk, ih h]

theorem lookupA_append_ne {α : Type} (l : List (String × α)) (n n' : String) (v : α)
    (h : n' ≠ n) : lookupA (l ++ [(n, v)]) n' = lookupA l n' := by
  induction l with
  | nil => simp [lookupA, Ne.symm h]
  | cons p t ih =>
    obtain ⟨k, w⟩ := p
    by_cases hk : k = n'
    · simp [lookupA, hk]
    · simp [lookupA, hk, ih]

/-- C2.  A read whose body runs (cache miss) and whose fetch fails
rate-limited: with a prior successful snapshot in the backup, that snapshot
is returned unchanged (the backup itself untouched) and a non-fatal warning
is surfaced; with no prior snapshot, an empty record set is returned and an
error is surfaced. -/
theorem load_data_rate_limited_fallback (st : AppState) (now : Nat) (name : String)
    (hmiss : cacheFresh st.cache now name = none) :
    (∀ df, lookupA st.backup name = some df →
        (load_data st now name FetchResult.rateLimited).result = df ∧
        (load_data st now name FetchResult.rateLimited).state.backup = st.backup ∧
        (load_data st now name FetchResult.rateLimited).warned = true ∧
        (load_data st now name FetchResult.rateLimited).errored = false) ∧
    (lookupA st.backup name = none →
        (load_data st now name FetchResult.rateLimited).result = [] ∧
        (load_data st now name FetchResult.rateLimited).errored = true) := by
  constructor
  · intro df hdf
    simp [load_data, hmiss, hdf]
  · intro h
    simp [load_data, hmiss, h]

/-- Witness for C2 at concrete states: a warm-backup fallback returns the
stored snapshot, a cold-backup rate-limited read reports an error. -/
theorem load_data_rate_limited_fallback_witness :
    (load_data ⟨[], [("T", [[Cell.strC "a"]])]⟩ 0 "T" FetchResult.rateLimited).result
        = [[Cell.strC "a"]] ∧
    (load_data ⟨[], []⟩ 0 "T" FetchResult.rateLimited).errored = true := by
  constructor
  · exact ((load_data_rate_limited_fallback ⟨[], [("T", [[Cell.strC "a"]])]⟩ 0 "T"
      (by decide)).1 [[Cell.strC "a"]] (by decide)).1
  · exact ((load_data_rate_limited_fallback ⟨[], []⟩ 0 "T" (by decide)).2 (by decide)).2

/-- C4.  After a successful fetch at time t0 (the body having run), a read
of the same table before t0 + 60 returns the very same record set without
contacting the store and leaves the state unchanged; a read at or past
t0 + 60 attempts a live fetch. -/
theorem load_data_cache_freshness (st : AppState) (t0 now : Nat) (name : String) (df : DF)
    (f f2 : FetchResult) (hmiss : cacheFresh st.cache t0 name = none) :
    (t0 ≤ now → now < t0 + 60 →
      load_data (load_data st t0 name (FetchResult.success df)).state now name f
        = ⟨df, (load_data st t0 name (FetchResult.success df)).state, false, false, false⟩) ∧
    (t0 + 60 ≤ now →
      (load_data (load_data st t0 name (FetchResult.success df)).state now name f2).storeContacted
        = true) := by
  have hstate : (load_data st t0 name (FetchResult.success df)).state
      = ⟨setA st.cache name (t0, df), setA st.backup name df⟩ := by
    simp [load_data, hmiss]
  have hfresh : ∀ m : Nat, cacheFresh (setA st.cache name (t0, df)) m name
      = if m < t0 + 60 then some df else none := by
    intro m
    simp [cacheFresh, lookupA_setA_self]
  constructor
  · intro _ hlt
    rw [hstate]
    simp [load_data, hfresh, hlt]
  · intro hge
    rw [hstate]
    have : ¬ now < t0 + 60 := by omega
    cases f2 with
    | success d2 => simp [load_data, hfresh, this]
    | rateLimited =>
        simp only [load_data, hfresh, if_neg this]
        cases hb : lookupA (setA st.backup name df) name <;> simp [hb]
    | otherError => simp [load_data, hfresh, this]

/-- Witness for C4 at a concrete state: a read at time 30 returns the
snapshot fetched at time 0 without a store call; a read at time 60 contacts
the store. -/
theorem load_data_cache_freshness_witness :
    load_data (load_data ⟨[], []⟩ 0 "T" (FetchResult.success [[Cell.strC "a"]])).state 30 "T"
        FetchResult.otherError
      = ⟨[[Cell.strC "a"]], (load_data ⟨[], []⟩ 0 "T"
          (FetchResult.success [[Cell.strC "a"]])).state, false, false, false⟩ ∧
    (load_data (load_data ⟨[], []⟩ 0 "T" (FetchResult.success [[Cell.strC "a"]])).state 60 "T"
        FetchResult.otherError).storeContacted = true := by
  constructor
  · exact (load_data_cache_freshness ⟨[], []⟩ 0 30 "T" [[Cell.strC "a"]]
      FetchResult.otherError FetchResult.otherError (by decide)).1 (by decide) (by decide)
  · exact (load_data_cache_freshness ⟨[], []⟩ 0 60 "T" [[Cell.strC "a"]]
      FetchResult.otherError FetchResult.otherError (by decide)).2 (by decide)

/-- C5.  clear_cache empties every cache entry at once, so the next read of
any table at any time runs its body and contacts the backing store. -/
theorem clear_cache_forces_fetch (st : AppState) (now : Nat) (name : String)
    (f : FetchResult) :
    (clear_cache st).cache = [] ∧
    (load_data (clear_cache st) now name f).storeContacted = true := by
  refine ⟨rfl, ?_⟩
  have hfresh : cacheFresh (clear_cache st).cache now name = none := rfl
  cases f with
  | success d2 => simp [load_data, hfresh]
  | rateLimited =>
      simp only [load_data, hfresh]
      cases hb : lookupA (clear_cache st).backup name <;> simp [hb]
  | otherError => simp [load_data, hfresh]

theorem backup_eq_aux (name : String) :
    ∀ (steps : List Step) (st : AppState),
      lookupA (runTrace st steps).backup name =
        (match lastSuccess st name steps with
         | some df => some df
         | none => lookupA st.backup name) := by
  intro steps
  induction steps with
  | nil => intro st; rfl
  | cons s rest ih =>
    intro st
    show lookupA (runTrace (stepState st s) rest).backup name = _
    rw [ih (stepState st s)]
    cases htail : lastSuccess (stepState st s) name rest with
    | some df => simp [lastSuccess, htail]
    | none =>
      simp only [lastSuccess, htail]
      cases s with
      | clear => simp [stepState, clear_cache]
      | read now n f =>
        by_cases hm : cacheFresh st.cache now n = none
        · cases f with
          | success df =>
            by_cases hn : n = name
            · subst hn
              simp [stepState, load_data, hm, lookupA_setA_self]
            · simp [stepState, load_data, hm, hn,
                lookupA_setA_ne st.backup n name df (Ne.symm hn)]
          | rateLimited =>
            simp only [stepState, load_data, hm]
            cases hb : lookupA st.backup n <;> simp [hb]
          | otherError => simp [stepState, load_data, hm]
        · obtain ⟨d0, hd0⟩ : ∃ v, cacheFresh st.cache now n = some v := by
            cases hc : cacheFresh st.cache now n
            · exact absurd hc hm
            · exact ⟨_, rfl⟩
          cases f <;> simp [stepState, load_data, hd0]

/-- C10.  Along any trace of reads and invalidations, the stale-fallback
backup entry of a table is exactly the record set of the most recent read
of that table whose body ran with a successful fetch (and is untouched when
no such read occurred); consequently a later rate-limited read whose body
runs returns exactly that most recent successfully fetched snapshot. -/
theorem backup_tracks_last_success (st : AppState) (steps : List Step) (name : String) :
    (lookupA (runTrace st steps).backup name =
      (match lastSuccess st name steps with
       | some df => some df
       | none => lookupA st.backup name)) ∧
    (∀ df now, lastSuccess st name steps = some df →
      cacheFresh (runTrace st steps).cache now name = none →
      (load_data (runTrace st steps) now name FetchResult.rateLimited).result = df) := by
  refine ⟨backup_eq_aux name steps st, ?_⟩
  intro df now hls hmiss
  have h1 := backup_eq_aux name steps st
  rw [hls] at h1
  simp [load_data, hmiss, h1]

/-- Witness for C10 on a concrete trace: after a successful fetch at time 0
followed by an invalidation, a rate-limited read at time 200 still returns
the snapshot fetched at time 0. -/
theorem backup_tracks_last_success_witness :
    (load_data (runTrace ⟨[], []⟩ [Step.read 0 "T" (FetchResult.success [[Cell.strC "a"]]),
        Step.clear]) 200 "T" FetchResult.rateLimited).result = [[Cell.strC "a"]] :=
  (backup_tracks_last_success ⟨[], []⟩
    [Step.read 0 "T" (FetchResult.success [[Cell.strC "a"]]), Step.clear] "T").2
    [[Cell.strC "a"]] 200 (by decide) (by decide)

theorem dropWhile_replicate_append {α : Type} (p : α → Bool) (a : α) (hp : p a = true) :
    ∀ (k : Nat) (xs : List α), List.dropWhile p (List.replicate k a ++ xs) = List.dropWhile p xs
  | 0, xs => by simp
  | k + 1, xs => by
    simp only [List.replicate, List.cons_append, List.dropWhile_cons, hp, if_pos]
    exact dropWhile_replicate_append p a hp k xs

theorem strip_append_replicate (l : List String) (k : Nat) :
    stripTrailingEmpty (l ++ List.replicate k "") = stripTrailingEmpty l := by
  unfold stripTrailingEmpty
  rw [List.reverse_append, List.reverse_replicate,
    dropWhile_replicate_append (fun s => s == "") "" (by simp) k l.reverse]

theorem strip_concat_ne (l : List String) (v : String) (hv : v ≠ "") :
    stripTrailingEmpty (l ++ [v]) = l ++ [v] := by
  unfold stripTrailingEmpty
  rw [List.reverse_append]
  simp [List.dropWhile_cons, hv]

theorem strip_no_empty (l : List String) (h : "" ∉ l) : stripTrailingEmpty l = l := by
  rcases List.eq_nil_or_concat l with rfl | ⟨t, v, rfl⟩
  · rfl
  · rw [List.concat_eq_append]
    refine strip_concat_ne t v ?_
    intro hv
    exact h (by simp [hv])

theorem strip_decomp (l : List String) :
    ∃ k, l = stripTrailingEmpty l ++ List.replicate k "" := by
  refine ⟨(l.reverse.takeWhile (fun s => s == "")).length, ?_⟩
  conv_lhs => rw [← l.reverse_reverse, ← List.takeWhile_append_dropWhile (fun s => s == "") l.reverse]
  rw [List.reverse_append]
  unfold stripTrailingEmpty
  congr 1
  have : ∀ b ∈ l.reverse.takeWhile (fun s => s == ""), b = "" := by
    intro b hb
    have := List.mem_takeWhile_imp hb
    simpa using this
  rw [List.eq_replicate_of_mem this, List.reverse_replicate, List.length_replicate]

theorem setPad_length_self (l : List String) (v : String) :
    setPad l l.length v = l ++ [v] := by
  induction l with
  | nil => rfl
  | cons x t ih => simp [setPad, ih]

theorem setPad_append_cons (l : List String) (x v : String) (t : List String) :
    setPad (l ++ x :: t) l.length v = l ++ v :: t := by
  induction l with
  | nil => rfl
  | cons y r ih => simp [setPad, ih]

theorem strip_setPad (r ex : List String) (h : String) (hex : stripTrailingEmpty r = ex)
    (hh : h ≠ "") : stripTrailingEmpty (setPad r ex.length h) = ex ++ [h] := by
  obtain ⟨k, hk⟩ := strip_decomp r
  rw [hex] at hk
  cases k with
  | zero =>
    rw [List.replicate, List.append_nil] at hk
    subst hk
    rw [setPad_length_self, strip_concat_ne _ _ hh]
  | succ k =>
    rw [List.replicate] at hk
    subst hk
    rw [setPad_append_cons]
    have : ex ++ h :: List.replicate k "" = (ex ++ [h]) ++ List.replicate k "" := by simp
    rw [this, strip_append_replicate, strip_concat_ne _ _ hh]

theorem processHeaders_no_missing (n : String) :
    ∀ (hs existing : List String) (s : Store), (∀ x ∈ hs, x ∈ existing) →
      processHeaders n hs existing s = s
  | [], _, s, _ => rfl
  | h :: hs, existing, s, hmem => by
    rw [processHeaders, if_pos (hmem h (by simp))]
    exact processHeaders_no_missing n hs existing s (fun x hx => hmem x (by simp [hx]))

theorem lookupA_processHeaders_ne (n n' : String) (hne : n' ≠ n) :
    ∀ (hs existing : List String) (s : Store),
      lookupA (processHeaders n hs existing s) n' = lookupA s n'
  | [], _, s => rfl
  | h :: hs, existing, s => by
    rw [processHeaders]
    by_cases hmem : h ∈ existing
    · rw [if_pos hmem]
      exact lookupA_processHeaders_ne n n' hne hs existing s
    · rw [if_neg hmem]
      rw [lookupA_processHeaders_ne n n' hne hs (existing ++ [h]) _]
      exact lookupA_updateA_ne s n n' _ hne

theorem processHeaders_spec (n : String) :
    ∀ (hs existing r : List String) (rest : List (List String)) (s : Store),
      "" ∉ hs → hs.Nodup →
      lookupA s n = some ⟨r :: rest⟩ →
      stripTrailingEmpty r = existing →
      ∃ r2, lookupA (processHeaders n hs existing s) n = some ⟨r2 :: rest⟩ ∧
        stripTrailingEmpty r2 = existing ++ hs.filter (fun h => decide (h ∉ existing))
  | [], existing, r, rest, s, _, _, hl, hex => ⟨r, by simpa using hl, by simp [hex]⟩
  | h :: hs, existing, r, rest, s, hemp, hnd, hl, hex => by
    have hh : h ≠ "" := fun he => hemp (by simp [he])
    have hhs : "" ∉ hs := fun he => hemp (by simp [he])
    have hnd' : hs.Nodup := (List.nodup_cons.mp hnd).2
    have hnotin : h ∉ hs := (List.nodup_cons.mp hnd).1
    rw [processHeaders]
    by_cases hmem : h ∈ existing
    · rw [if_pos hmem]
      obtain ⟨r2, hl2, hs2⟩ := processHeaders_spec n hs existing r rest s hhs hnd' hl hex
      refine ⟨r2, hl2, ?_⟩
      rw [hs2, List.filter_cons]
      simp [hmem]
    · rw [if_neg hmem]
      have hl' : lookupA (updateHeaderCell s n (existing.length + 1) h) n
          = some ⟨setPad r existing.length h :: rest⟩ := by
        unfold updateHeaderCell
        rw [lookupA_updateA_self, hl]
        simp
      have hex' : stripTrailingEmpty (setPad r existing.length h) = existing ++ [h] :=
        strip_setPad r existing h hex hh
      obtain ⟨r2, hl2, hs2⟩ := processHeaders_spec n hs (existing ++ [h])
        (setPad r existing.length h) rest _ hhs hnd' hl' hex'
      refine ⟨r2, hl2, ?_⟩
      rw [hs2]
      have hfilter : hs.filter (fun x => decide (x ∉ existing ++ [h]))
          = hs.filter (fun x => decide (x ∉ existing)) := by
        refine List.filter_congr ?_
        intro x hx
        rw [decide_eq_decide]
        have hxh : x ≠ h := fun he => hnotin (he ▸ hx)
        simp [hxh]
      rw [hfilter, List.filter_cons]
      have : decide (h ∉ existing) = true := by simpa using hmem
      rw [this]
      simp

/-- A worksheet slot a run of the reconciler handles predictably: absent,
entirely empty, or with a non-empty first row.  (A worksheet whose first
row is blank while later rows hold data is the degenerate shape on which
append_row does not create a header row.) -/
def okWs (o : Option Worksheet) : Prop :=
  ∀ ws, o = some ws → ws.rows = [] ∨ rowValues1 ws ≠ []

/-- A worksheet slot already reconciled for the given headers: present,
with a non-empty first row containing every canonical header. -/
def goodWs (hs : List String) (o : Option Worksheet) : Prop :=
  ∃ ws, o = some ws ∧ rowValues1 ws ≠ [] ∧ ∀ h ∈ hs, h ∈ rowValues1 ws

theorem lookupA_processTable_ne (s : Store) (t : String × List String) (n' : String)
    (h : n' ≠ t.1) : lookupA (processTable s t) n' = lookupA s n' := by
  cases hl : lookupA s t.1 with
  | some ws =>
    by_cases he : (rowValues1 ws).isEmpty
    · simp only [processTable, hl, if_pos he]
      exact lookupA_updateA_ne s t.1 n' _ h
    · simp only [processTable, hl, if_neg he]
      exact lookupA_processHeaders_ne t.1 n' h t.2 (rowValues1 ws) s
  | none =>
    simp only [processTable, hl]
    unfold appendRowStore
    rw [lookupA_updateA_ne _ t.1 n' _ h]
    exact lookupA_append_ne s t.1 n' _ h

theorem processTable_good (s : Store) (n : String) (hs : List String)
    (hne : hs ≠ []) (hemp : "" ∉ hs) (hnd : hs.Nodup)
    (hok : okWs (lookupA s n)) : goodWs hs (lookupA (processTable s (n, hs)) n) := by
  have hfresh : rowValues1 ⟨[hs]⟩ = hs := by
    show stripTrailingEmpty hs = hs
    exact strip_no_empty hs hemp
  cases hl : lookupA s n with
  | none =>
    simp only [processTable, hl]
    unfold appendRowStore
    rw [lookupA_updateA_self, lookupA_append_right s n _ hl]
    refine ⟨⟨[hs]⟩, by simp, ?_, ?_⟩
    · rw [hfresh]; simpa using hne
    · intro h hh; rw [hfresh]; exact hh
  | some ws =>
    rcases hok ws hl with hrows | hrv
    · have he : (rowValues1 ws).isEmpty = true := by
        unfold rowValues1
        rw [hrows]
        rfl
      simp only [processTable, hl, if_pos he]
      unfold appendRowStore
      rw [lookupA_updateA_self, hl]
      refine ⟨⟨ws.rows ++ [hs]⟩, by simp, ?_, ?_⟩
      · rw [hrows]
        show rowValues1 ⟨[hs]⟩ ≠ []
        rw [hfresh]; simpa using hne
      · intro h hh
        rw [hrows]
        show h ∈ rowValues1 ⟨[hs]⟩
        rw [hfresh]; exact hh
    · have he : ¬ (rowValues1 ws).isEmpty = true := by
        simpa [List.isEmpty_iff] using hrv
      simp only [processTable, hl, if_neg he]
      obtain ⟨r, rest, hr⟩ : ∃ r rest, ws.rows = r :: rest := by
        cases hrows : ws.rows with
        | nil =>
            refine absurd ?_ hrv
            unfold rowValues1
            rw [hrows]
        | cons r rest => exact ⟨r, rest, rfl⟩
      have hrv1 : rowValues1 ws = stripTrailingEmpty r := by
        unfold rowValues1
        rw [hr]
      have hl' : lookupA s n = some ⟨r :: rest⟩ := by
        rw [hl]; congr 1; cases ws; simp at hr ⊢; exact hr
      obtain ⟨r2, hl2, hs2⟩ := processHeaders_spec n hs (rowValues1 ws) r rest s hemp hnd
        hl' hrv1.symm
      refine ⟨⟨r2 :: rest⟩, hl2, ?_, ?_⟩
      · show stripTrailingEmpty r2 ≠ []
        rw [hs2]
        intro hcontra
        exact hrv (by simpa using (List.append_eq_nil.mp hcontra).1)
      · intro h hh
        show h ∈ stripTrailingEmpty r2
        rw [hs2]
        by_cases hin : h ∈ rowValues1 ws
        · exact List.mem_append_left _ hin
        · refine List.mem_append_right _ ?_
          rw [List.mem_filter]
          exact ⟨hh, by simpa using hin⟩

theorem processTable_noop (s : Store) (n : String) (hs : List String)
    (hg : goodWs hs (lookupA s n)) : processTable s (n, hs) = s := by
  obtain ⟨ws, hl, hrv, hmem⟩ := hg
  have he : ¬ (rowValues1 ws).isEmpty = true := by
    simpa [List.isEmpty_iff] using hrv
  simp only [processTable, hl, if_neg he]
  exact processHeaders_no_missing n hs (rowValues1 ws) s hmem

theorem lookupA_fold_ne (n' : String) :
    ∀ (ts : List (String × List String)) (s : Store), n' ∉ ts.map Prod.fst →
      lookupA (ts.foldl processTable s) n' = lookupA s n'
  | [], s, _ => rfl
  | t :: ts, s, hmem => by
    have h1 : n' ≠ t.1 := by
      intro he
      exact hmem (by simp [he])
    have h2 : n' ∉ ts.map Prod.fst := by
      intro he
      exact hmem (by simp [he])
    rw [List.foldl_cons, lookupA_fold_ne n' ts (processTable s t) h2,
      lookupA_processTable_ne s t n' h1]

theorem fold_noop :
    ∀ (ts : List (String × List String)) (s : Store),
      (∀ t ∈ ts, goodWs t.2 (lookupA s t.1)) → ts.foldl processTable s = s
  | [], s, _ => rfl
  | t :: ts, s, hg => by
    have h0 : processTable s t = s := by
      have := hg t (by simp)
      have ht : t = (t.1, t.2) := rfl
      rw [ht]
      exact processTable_noop s t.1 t.2 this
    rw [List.foldl_cons, h0]
    exact fold_noop ts s (fun u hu => hg u (by simp [hu]))

theorem fold_good :
    ∀ (ts : List (String × List String)) (s : Store),
      (ts.map Prod.fst).Nodup →
      (∀ t ∈ ts, t.2 ≠ [] ∧ "" ∉ t.2 ∧ t.2.Nodup) →
      (∀ t ∈ ts, okWs (lookupA s t.1)) →
      ∀ t ∈ ts, goodWs t.2 (lookupA (ts.foldl processTable s) t.1)
  | [], _, _, _, _, t, ht => absurd ht (by simp)
  | t0 :: ts, s, hnd, hh, hok, t, ht => by
    have hnd1 : t0.1 ∉ ts.map Prod.fst := (List.nodup_cons.mp hnd).1
    have hnd2 : (ts.map Prod.fst).Nodup := (List.nodup_cons.mp hnd).2
    rw [List.foldl_cons]
    rcases List.mem_cons.mp ht with rfl | htail
    · obtain ⟨hne, hemp, hnodup⟩ := hh t (by simp)
      have hgood : goodWs t.2 (lookupA (processTable s t) t.1) := by
        have ht' : t = (t.1, t.2) := rfl
        conv_lhs => rw [ht']
        exact processTable_good s t.1 t.2 hne hemp hnodup (hok t (by simp))
      rwa [lookupA_fold_ne t.1 ts (processTable s t) hnd1]
    · have hne0 : t.1 ≠ t0.1 := by
        intro he
        exact hnd1 (he ▸ List.mem_map_of_mem Prod.fst htail)
      refine fold_good ts (processTable s t0) hnd2
        (fun u hu => hh u (by simp [hu])) ?_ t htail
      intro u hu
      by_cases hu0 : u.1 = t0.1
      · exact absurd (hu0 ▸ List.mem_map_of_mem Prod.fst hu) hnd1
      · rw [lookupA_processTable_ne s t0 u.1 hu0]
        exact hok u (by simp [hu])

/-- C1 (amended).  The Schema Reconciler is idempotent on every store state
in which each canonical table's worksheet, when it already exists, is
either entirely empty or has a non-empty first row: running init_sheet
twice yields exactly the state of running it once. -/
theorem init_sheet_idempotent_of_ok (s : Store)
    (hok : ∀ t ∈ tables, okWs (lookupA s t.1)) :
    init_sheet (init_sheet s) = init_sheet s := by
  have hnd : (tables.map Prod.fst).Nodup := by decide
  have hh : ∀ t ∈ tables, t.2 ≠ [] ∧ "" ∉ t.2 ∧ t.2.Nodup := by decide
  have hg := fold_good tables s hnd hh hok
  show tables.foldl processTable (init_sheet s) = init_sheet s
  exact fold_noop tables (init_sheet s) (fun t ht => hg t ht)

/-- Witness for C1 (amended) at the empty store. -/
theorem init_sheet_idempotent_witness :
    init_sheet (init_sheet []) = init_sheet [] :=
  init_sheet_idempotent_of_ok []
    (fun _ _ => fun _ hws => Option.noConfusion hws)

/-- Counterexample to C1 as stated: on a store whose Directory worksheet
has a blank first row but data in its second row, append_row places the
canonical headers below the data, so the second run appends them again and
the store keeps changing. -/
theorem init_sheet_not_idempotent_on_blank_header_row :
    init_sheet (init_sheet [("Directory", ⟨[[], ["x"]]⟩)])
      ≠ init_sheet [("Directory", ⟨[[], ["x"]]⟩)] := by decide

theorem fold_preserves_headers :
    ∀ (ts : List (String × List String)) (s : Store) (name : String)
      (hs r : List String) (rest : List (List String)),
      (ts.map Prod.fst).Nodup →
      (∀ t ∈ ts, "" ∉ t.2 ∧ t.2.Nodup) →
      (name, hs) ∈ ts →
      lookupA s name = some ⟨r :: rest⟩ →
      stripTrailingEmpty r ≠ [] →
      ∃ r2, lookupA (ts.foldl processTable s) name = some ⟨r2 :: rest⟩ ∧
        stripTrailingEmpty r2
          = stripTrailingEmpty r ++ hs.filter (fun h => decide (h ∉ stripTrailingEmpty r))
  | [], _, _, _, _, _, _, _, hmem, _, _ => absurd hmem (by simp)
  | t0 :: ts, s, name, hs, r, rest, hnd, hh, hmem, hl, hne => by
    have hnd1 : t0.1 ∉ ts.map Prod.fst := (List.nodup_cons.mp hnd).1
    have hnd2 : (ts.map Prod.fst).Nodup := (List.nodup_cons.mp hnd).2
    rw [List.foldl_cons]
    rcases List.mem_cons.mp hmem with heq | htail
    · obtain ⟨hemp, hnodup⟩ := hh t0 (by simp)
      have hname : t0.1 = name := by rw [← heq]
      have hhs : t0.2 = hs := by rw [← heq]
      have he : ¬ (rowValues1 ⟨r :: rest⟩).isEmpty = true := by
        have : rowValues1 ⟨r :: rest⟩ = stripTrailingEmpty r := rfl
        simpa [List.isEmpty_iff, this] using hne
      have hred : processTable s t0
          = processHeaders name hs (stripTrailingEmpty r) s := by
        rw [show t0 = (name, hs) from heq.symm]
        simp only [processTable, hl, if_neg he]
        rfl
      rw [hred]
      obtain ⟨r2, hl2, hs2⟩ := processHeaders_spec name hs (stripTrailingEmpty r) r rest s
        (hhs ▸ hemp) (hhs ▸ hnodup) hl rfl
      refine ⟨r2, ?_, hs2⟩
      rw [lookupA_fold_ne name ts _ (hname ▸ hnd1), hl2]
    · have hne0 : name ≠ t0.1 := by
        intro he
        exact hnd1 (he ▸ List.mem_map_of_mem Prod.fst htail)
      refine fold_preserves_headers ts (processTable s t0) name hs r rest hnd2
        (fun u hu => hh u (by simp [hu])) htail ?_ hne
      rw [lookupA_processTable_ne s t0 name hne0]
      exact hl

/-- C3.  Reconciling a store in which a canonical table already exists with
a non-empty (stripped) header row never removes or reorders the existing
header cells and leaves every data row untouched: afterwards the header row
is exactly the old header cells followed, in canonical order, by the
canonical headers that were absent. -/
theorem init_sheet_preserves_existing_columns (s : Store) (name : String)
    (hs r : List String) (rest : List (List String))
    (hmem : (name, hs) ∈ tables)
    (hws : lookupA s name = some ⟨r :: rest⟩)
    (hne : stripTrailingEmpty r ≠ []) :
    ∃ r2, lookupA (init_sheet s) name = some ⟨r2 :: rest⟩ ∧
      stripTrailingEmpty r2
        = stripTrailingEmpty r ++ hs.filter (fun h => decide (h ∉ stripTrailingEmpty r)) :=
  fold_preserves_headers tables s name hs r rest (by decide) (by decide) hmem hws hne

/-- Witness for C3: a Hours worksheet with an extra column and one data row
keeps both and gains exactly the absent canonical headers. -/
theorem init_sheet_preserves_existing_columns_witness :
    ∃ r2, lookupA (init_sheet [("Hours", ⟨[["Employee", "Extra"], ["bob", "x"]]⟩)]) "Hours"
        = some ⟨r2 :: [["bob", "x"]]⟩ ∧
      stripTrailingEmpty r2
        = stripTrailingEmpty ["Employee", "Extra"]
          ++ (["Employee", "Date", "Hours", "Task", "Contract"].filter
                (fun h => decide (h ∉ stripTrailingEmpty ["Employee", "Extra"]))) :=
  init_sheet_preserves_existing_columns [("Hours", ⟨[["Employee", "Extra"], ["bob", "x"]]⟩)]
    "Hours" ["Employee", "Date", "Hours", "Task", "Contract"] ["Employee", "Extra"]
    [["bob", "x"]] (by decide) (by decide) (by decide)

theorem mapOpt_eq_of_isSome (g : Cell → Option Frac) :
    ∀ (col : List Cell), (∀ c ∈ col, (g c).isSome = true) →
      mapOpt g col = some (col.map (fun c => (g c).getD ⟨0, 1⟩))
  | [], _ => rfl
  | c :: t, h => by
    obtain ⟨v, hv⟩ := Option.isSome_iff_exists.mp (h c (by simp))
    rw [mapOpt, hv, mapOpt_eq_of_isSome g t (fun u hu => h u (by simp [hu]))]
    simp [hv]

theorem sum_cellNum_eq (col : List Cell) (h : col.all isNumCell = true) :
    sumF (col.map cellNum) = specColumnSum col := by
  unfold specColumnSum
  induction col with
  | nil => rfl
  | cons c t ih =>
    simp only [List.all_cons, Bool.and_eq_true] at h
    simp only [List.map_cons, sumF]
    rw [ih h.2]
    cases c with
    | numC q => rfl
    | strC s => simp [isNumCell] at h

/-- Counterexample to C6 as stated: the Mileage sum does not strip a
currency symbol (a lone value of "$5.50" sums to 0, not 5.50), and the
Expenses sum does not treat a non-parseable value as zero (no sum is
produced at all). -/
theorem column_sum_claim_counterexample :
    ytd_mileage [Cell.strC "$5.50"] ≠ specColumnSum [Cell.strC "$5.50"] ∧
    Frac.toRat (ytd_mileage [Cell.strC "$5.50"]) = 0 ∧
    Frac.toRat (specColumnSum [Cell.strC "$5.50"]) = 11 / 2 ∧
    pending_expenses [Cell.strC "x"] = none := by
  refine ⟨by decide, ?_, ?_, by decide⟩
  · rw [show ytd_mileage [Cell.strC "$5.50"] = ⟨0, 1⟩ from by decide]
    norm_num [Frac.toRat]
  · rw [show specColumnSum [Cell.strC "$5.50"] = ⟨550, 100⟩ from by decide]
    norm_num [Frac.toRat]

/-- C6 (amended).  Each metric implements only part of the claimed
behavior: the Expenses sum agrees with the claimed
strip-then-parse-non-parseable-as-zero sum whenever every value parses
after stripping (and produces no sum otherwise), and the Mileage sum agrees
with it whenever no string value contains a currency symbol or thousands
separator. -/
theorem column_sum_split_behaviors (col : List Cell) :
    ((∀ c ∈ col, (cellToFloatStripped c).isSome = true) →
      pending_expenses col = some (specColumnSum col)) ∧
    ((∀ s : String, Cell.strC s ∈ col → stripDollarComma s = s) →
      ytd_mileage col = specColumnSum col) := by
  constructor
  · intro hall
    unfold pending_expenses
    by_cases hnum : col.all isNumCell
    · rw [if_pos hnum, sum_cellNum_eq col hnum]
    · rw [if_neg hnum, mapOpt_eq_of_isSome cellToFloatStripped col hall]
      rfl
  · intro hstr
    unfold ytd_mileage specColumnSum
    congr 1
    refine List.map_congr_left ?_
    intro c hc
    cases c with
    | numC q => rfl
    | strC s =>
      show (pyFloat s).getD ⟨0, 1⟩ = (pyFloat (stripDollarComma s)).getD ⟨0, 1⟩
      rw [hstr s hc]

/-- Witness for C6 (amended): an all-parseable expense column and a
formatting-free mileage column, each agreeing with the claimed sum. -/
theorem column_sum_split_behaviors_witness :
    pending_expenses [Cell.strC "$1.50", Cell.numC ⟨2, 1⟩]
        = some (specColumnSum [Cell.strC "$1.50", Cell.numC ⟨2, 1⟩]) ∧
    ytd_mileage [Cell.strC "3.5"] = specColumnSum [Cell.strC "3.5"] := by
  constructor
  · exact (column_sum_split_behaviors [Cell.strC "$1.50", Cell.numC ⟨2, 1⟩]).1 (by decide)
  · refine (column_sum_split_behaviors [Cell.strC "3.5"]).2 ?_
    intro s hs
    simp only [List.mem_singleton, Cell.strC.injEq] at hs
    subst hs
    decide

/-- C7.  An expense Amount column holding exactly the values "$10.00",
"20" and "$5.50" sums to 35.50. -/
theorem pending_expenses_example :
    (pending_expenses [Cell.strC "$10.00", Cell.strC "20", Cell.strC "$5.50"]).map Frac.toRat
      = some (71 / 2 : Rat) := by
  rw [show pending_expenses [Cell.strC "$10.00", Cell.strC "20", Cell.strC "$5.50"]
      = some ⟨355000, 10000⟩ from by decide]
  rw [Option.map_some']
  norm_num [Frac.toRat]

/-- Counterexample to C8 as stated: the Mileage form has no required-field
validation at all - a submission with every text field empty and both
odometers zero still appends a row. -/
theorem mileage_form_submits_without_validation :
    (mileage_form "2025-01-01" "" "" "" ⟨0, 1⟩ ⟨0, 1⟩).appended ≠ none := by
  simp [mileage_form]

/-- C8 (amended).  Forms guarded by a required field, such as the pipeline
contract form requiring a non-empty opportunity name, silently do not
submit on an empty required field: no row is appended and no error is
surfaced.  The Mileage form performs no such validation and appends a row
on every submission. -/
theorem form_validation_amended (notice ctype cname cemail odue idate pdate notes
    d lic veh vt : String) (so eo : Frac) :
    (pipeline_contract_form "" notice ctype cname cemail odue idate pdate notes).appended
        = none ∧
    (pipeline_contract_form "" notice ctype cname cemail odue idate pdate notes).errored
        = false ∧
    (mileage_form d lic veh vt so eo).appended.isSome = true := by
  refine ⟨?_, ?_, ?_⟩ <;> simp [pipeline_contract_form, mileage_form]

/-- C9.  A mileage submission with starting odometer 1000.0 and ending
odometer 1120.5 stores total miles whose value is exactly 120.5 and the
reimbursement string "$78.33" (the double product 120.5 x 0.65 lies just
above 78.325, so the two-decimal rounding gives 78.33). -/
theorem mileage_example (d lic veh vt : String) :
    Frac.toRat (roundDouble (Frac.sub ⟨2241, 2⟩ ⟨1000, 1⟩)) = 241 / 2 ∧
    (mileage_form d lic veh vt ⟨1000, 1⟩ ⟨2241, 2⟩).appended
      = some [Cell.strC d, Cell.strC lic, Cell.strC veh, Cell.strC vt,
          Cell.numC ⟨1000, 1⟩, Cell.numC ⟨2241, 2⟩,
          Cell.numC (roundDouble (Frac.sub ⟨2241, 2⟩ ⟨1000, 1⟩)),
          Cell.strC "$78.33"] := by
  constructor
  · rw [show roundDouble (Frac.sub ⟨2241, 2⟩ ⟨1000, 1⟩)
        = ⟨8479433673408512, 70368744177664⟩ from by decide]
    norm_num [Frac.toRat]
  · show SubmitResult.appended ⟨some _, false⟩ = _
    rw [show fmtDollar2 (roundDouble (Frac.mul (roundDouble (Frac.sub ⟨2241, 2⟩ ⟨1000, 1⟩))
        (roundDouble ⟨13, 20⟩))) = "$78.33" from by decide]
